import Mathlib

set_option maxRecDepth 8000

/-!
Verification development for the incremental log-file parser of
floodmodeller_api (src/floodmodeller_api/logs/lf.py and lf_helpers.py).

The embedding models raw lines as Lean `String`s and re-implements the
Python string operations the source uses (`startswith`, `split`, `lstrip`)
as executable Lean functions.  The session state of an `LF` object
(`_extracted_data`, `_no_lines`, `_no_iters`) is an explicit `SState`
record, and each method of `LF` becomes a pure state-passing function.
Python exceptions are modelled with explicit result types.
-/

/-- Embeds Python `str.startswith` as used in lf.py line 101
(`raw_line.startswith(line_type.prefix)`). -/
def pyStartsWith (s p : String) : Bool :=
  List.isPrefixOf p.toList s.toList

/-- Fuel-indexed worker for `pySplit`.  Scans the character list left to
right; each occurrence of the (non-empty) separator ends the current
segment, exactly like Python `str.split` with a non-empty separator
(leftmost, non-overlapping matches).  The fuel is at least the length of
the scanned list plus one, so it never runs out. -/
def pySplitAux (sep : List Char) : ℕ → List Char → List Char → List (List Char)
  | 0, acc, l => [acc.reverse ++ l]
  | _ + 1, acc, [] => [acc.reverse]
  | fuel + 1, acc, c :: rest =>
    if List.isPrefixOf sep (c :: rest) then
      acc.reverse :: pySplitAux sep fuel [] (List.drop sep.length (c :: rest))
    else
      pySplitAux sep fuel (c :: acc) rest

/-- Embeds Python `str.split(sep)` for a non-empty separator, as used in
lf.py line 104 (`raw_line.split(line_type.prefix)`) and in the value
parsers of lf_helpers.py.  (Python raises ValueError on an empty
separator; the source only ever splits on non-empty prefixes/delimiters,
and we return `[s]` in that degenerate case.) -/
def pySplit (s sep : String) : List String :=
  if sep.toList.isEmpty then [s]
  else List.map String.mk (pySplitAux sep.toList (s.toList.length + 1) [] s.toList)

/-- Embeds Python `str.lstrip()` (strip leading whitespace), as used in
lf.py line 104. -/
def pyLstrip (s : String) : String :=
  String.mk (s.toList.dropWhile Char.isWhitespace)

/-- Embeds lf.py line 104: `end_of_line = raw_line.split(line_type.prefix)[1].lstrip()`.
Index `[1]` is total in Python whenever the line starts with the prefix
(the split then has at least two parts); we use `getD 1 ""`. -/
def endOfLine (raw p : String) : String :=
  pyLstrip ((pySplit raw p).getD 1 "")

/-- Scalar typed values produced by the value parsers of lf_helpers.py:
floats (modelled as rationals), the float("nan") sentinel, strings,
datetime.timedelta durations (modelled as rational seconds), and the
pandas NaT null-time sentinel. -/
inductive SVal where
  | num (q : ℚ)
  | nanNum
  | str (s : String)
  | dur (secs : ℚ)
  | naT
deriving DecidableEq

/-- A parsed line value: either a scalar or, for TimeFloatMult lines,
a list of scalars (one per subheader). -/
inductive LVal where
  | scal (v : SVal)
  | multi (xs : List SVal)
deriving DecidableEq

/-- Retention mode of a line type: lf.py distinguishes entries with
`"type": "many"` (AllData accumulator, one value per occurrence) from
`"type": "last"` (LastData accumulator, latest value only). -/
inductive DType where
  | many
  | last
deriving DecidableEq

/-- Configuration record for one line type, the per-entry content of the
`data_to_extract` dictionaries injected into `LF` (lf.py lines 76-84).
`pfx` embeds the Python attribute `prefix` (a Lean keyword), `index` the
iteration-marker flag tested at lf.py line 109, `before_index` the flag
used in `_sync_cols` (lf.py line 196), `nan` the line type's missing
sentinel `_nan`, and `names` the subheader names of a TimeFloatMult line
type (`none` for single-value line types).  `parse` abstracts the line
type's `process_line_wrapper` on its non-raising path: the conversion of
the post-prefix residual into a typed value. -/
structure FieldSpec where
  name : String
  pfx : String
  type : DType
  index : Bool
  before_index : Bool
  nan : LVal
  names : Option (List String)
  parse : String → LVal

/-- Accumulator state of one line type: LastData holds a single
overwritable optional value, AllData an ordered list; both track
`no_values`, the running count maintained by `update`
(lf_helpers.py lines 37-58). -/
inductive DataState where
  | lastD (value : Option LVal) (no_values : ℕ)
  | allD (value : List LVal) (no_values : ℕ)
deriving DecidableEq

/-- Embeds `LastData.update` (overwrite, count becomes 1) and
`AllData.update` (append, count increments) from lf_helpers.py. -/
def DataState.update : DataState → LVal → DataState
  | DataState.lastD _ _, v => DataState.lastD (some v) 1
  | DataState.allD vs n, v => DataState.allD (vs ++ [v]) (n + 1)

/-- The `no_values` counter of an accumulator. -/
def DataState.no_values : DataState → ℕ
  | DataState.lastD _ n => n
  | DataState.allD _ n => n

/-- Embeds `len(line_type.value)` for an AllData accumulator
(lf.py lines 212 and 221; only ever evaluated on "many" line types). -/
def DataState.value_len : DataState → ℕ
  | DataState.lastD _ _ => 0
  | DataState.allD vs _ => vs.length

/-- The stored list of an AllData accumulator (`line_type.value` for
"many" line types; lf.py line 157). -/
def DataState.value_list : DataState → List LVal
  | DataState.lastD _ _ => []
  | DataState.allD vs _ => vs

/-- Session state of an `LF` object: the accumulators `_extracted_data`
(as a list parallel to the configuration list) and the parse cursor
`_no_lines` / `_no_iters` (lf.py lines 66-70). -/
structure SState where
  fields : List DataState
  no_lines : ℕ
  no_iters : ℕ
deriving DecidableEq

/-- Embeds Python `int(bool)` as used in lf.py line 196. -/
def boolNat (b : Bool) : ℕ :=
  if b then 1 else 0

/-- Embeds the body of `LF._sync_cols` for a single line type
(lf.py lines 187-199): non-index line types of type "many" whose count
is below `no_iters + int(before_index)` get one missing sentinel
appended. -/
def syncOne (iters : ℕ) (f : FieldSpec) (d : DataState) : DataState :=
  if f.index = false then
    if f.type = DType.many ∧ d.no_values < iters + boolNat f.before_index then
      d.update f.nan
    else d
  else d

/-- Embeds `LF._sync_cols` (lf.py lines 183-199): the per-line-type sync
applied across the whole registry. -/
def syncFields (cfg : List FieldSpec) (iters : ℕ) (fs : List DataState) : List DataState :=
  List.zipWith (syncOne iters) cfg fs

/-- Embeds one pass of the inner loop of `LF._update_line_types`
(lf.py lines 96-111) for the line type at position `i` of the registry:
if the raw line starts with the line type's prefix, parse the residual
and update the accumulator; if the line type is the iteration marker,
run `_sync_cols` and then increment `_no_iters`. -/
def procOne (cfg : List FieldSpec) (line : String) (s : SState) (i : ℕ) : SState :=
  match cfg.get? i with
  | none => s
  | some f =>
    if pyStartsWith line f.pfx then
      let v := f.parse (endOfLine line f.pfx)
      let s1 : SState :=
        ⟨s.fields.set i ((s.fields.getD i (DataState.allD [] 0)).update v),
          s.no_lines, s.no_iters⟩
      if f.index then
        ⟨syncFields cfg s1.no_iters s1.fields, s1.no_lines, s1.no_iters + 1⟩
      else s1
    else s

/-- Processes the registry positions in `js` in order (the inner
`for key in self._data_to_extract` loop visits every entry; there is no
break). -/
def procFrom (cfg : List FieldSpec) (line : String) : SState → List ℕ → SState
  | s, [] => s
  | s, j :: js => procFrom cfg line (procOne cfg line s j) js

/-- Embeds the body of the outer loop of `LF._update_line_types` for one
raw line: every registry entry is tried in declaration order, then
`_no_lines` is incremented (lf.py lines 93-114). -/
def processLine (cfg : List FieldSpec) (s : SState) (line : String) : SState :=
  let s1 := procFrom cfg line s (List.range cfg.length)
  ⟨s1.fields, s1.no_lines + 1, s1.no_iters⟩

/-- Embeds the loop of `LF._update_line_types` over a batch of raw
lines. -/
def processLines (cfg : List FieldSpec) (s : SState) (ls : List String) : SState :=
  List.foldl (processLine cfg) s ls

/-- Embeds `LF._init_counters` plus `LF._init_line_types`
(lf.py lines 66-84 with `data_factory` of lf_helpers.py lines 92-98):
fresh accumulators (AllData empty list for "many", LastData None for
"last") and zeroed counters. -/
def initState (cfg : List FieldSpec) : SState :=
  ⟨cfg.map (fun f =>
      match f.type with
      | DType.many => DataState.allD [] 0
      | DType.last => DataState.lastD none 0),
    0, 0⟩

/-- Embeds the first loop of `LF._final_sync_cols` (lf.py lines 204-213):
`max_length` is the maximum list length over the "many" line types
(non-"many" entries never update the running maximum, which starts
at 0; here they contribute 0, which is equivalent). -/
def manyMaxLen (cfg : List FieldSpec) (fs : List DataState) : ℕ :=
  List.foldl max 0
    (List.zipWith (fun f d => if f.type = DType.many then d.value_len else 0) cfg fs)

/-- Embeds the second loop of `LF._final_sync_cols` for a single line
type (lf.py lines 216-230): a "many" list of length `max_length - 1`
gets one sentinel appended, one of length `max_length - 2` gets two,
everything else is untouched.  The comparisons are carried out over ℤ
because Python compares against possibly negative `max_length - 1` /
`max_length - 2`. -/
def finalOne (m : ℕ) (f : FieldSpec) (d : DataState) : DataState :=
  if f.type = DType.many then
    if (d.value_len : ℤ) = (m : ℤ) - 1 then d.update f.nan
    else if (d.value_len : ℤ) = (m : ℤ) - 2 then (d.update f.nan).update f.nan
    else d
  else d

/-- Embeds `LF._final_sync_cols` (lf.py lines 201-230). -/
def finalSyncCols (cfg : List FieldSpec) (s : SState) : SState :=
  ⟨List.zipWith (finalOne (manyMaxLen cfg s.fields)) cfg s.fields, s.no_lines, s.no_iters⟩

/-- Embeds `LF._read` (lf.py lines 41-59): `file` is the full list of
raw lines currently in the log file; on `force_reread` the counters and
accumulators are re-initialised; `_update_line_types` processes only the
lines from `_no_lines` onward; unless suppressed, `_final_sync_cols`
runs at the end (`_set_attributes` / `_create_dataframe` are pure
projections of the resulting state and are modelled separately). -/
def readLF (cfg : List FieldSpec) (s : SState) (file : List String)
    (force_reread suppress_final_steps : Bool) : SState :=
  let s0 := if force_reread then initState cfg else s
  let s1 := processLines cfg s0 (List.drop s0.no_lines file)
  if suppress_final_steps then s1 else finalSyncCols cfg s1

/-- Embeds `item[i]` in `LF._create_dataframe` (lf.py line 168): entry
`i` of a TimeFloatMult row.  The source indexes the Python list directly
(its rows always have one entry per subheader); out-of-range access is
defaulted here. -/
def getIdx (v : LVal) (i : ℕ) : SVal :=
  match v with
  | LVal.multi xs => xs.getD i SVal.nanNum
  | LVal.scal w => w

/-- Embeds the per-line-type part of `LF._create_dataframe`
(lf.py lines 148-173): only "many" line types contribute; a
TimeFloatMult line type (modelled by `names = some ns`) contributes one
column per subheader name, any other line type one column under its own
key. -/
def colFor (f : FieldSpec) (d : DataState) : List (String × List LVal) :=
  if f.type = DType.many then
    match f.names with
    | some ns =>
      (List.range ns.length).map
        (fun i => (ns.getD i "", d.value_list.map (fun item => LVal.scal (getIdx item i))))
    | none => [(f.name, d.value_list)]
  else []

/-- Embeds `LF._create_dataframe` (lf.py lines 132-176): the Result
Table as an ordered column map (the pandas DataFrame is keyed by
insertion order of the `run` dictionary). -/
def createDataframe (cfg : List FieldSpec) (s : SState) : List (String × List LVal) :=
  List.flatten (List.zipWith colFor cfg s.fields)

/-- Python exception kinds this embedding distinguishes.  The spec's
error taxonomy names `ValueError` from a failed conversion
`MalformedValue`, and the `NotImplementedError` of progress reporting on
a steady session `UnsupportedOperation`. -/
inductive PyErr where
  | valueError
  | typeError
  | keyError
  | notImplementedError
deriving DecidableEq

/-- Result of a Python call: a typed value, a raw Python list (an
AllData `.value` handed back unmodified), or a raised exception. -/
inductive PResult where
  | ok (v : LVal)
  | okList (vs : List LVal)
  | err (e : PyErr)
deriving DecidableEq

/-- Embeds the dictionary lookup `self._extracted_data["progress"]`
(lf.py line 244) as the position of the first registry entry whose key
is "progress". -/
def lookupField (cfg : List FieldSpec) (k : String) : Option ℕ :=
  List.findIdx? (fun f => f.name == k) cfg

/-- Embeds the `.value` read of `LF._report_progress` (lf.py line 244):
a LastData accumulator yields its optional single value; an AllData
accumulator yields its list (a Python list, never None). -/
def progressValue : DataState → Option (List LVal ⊕ LVal)
  | DataState.lastD none _ => none
  | DataState.lastD (some v) _ => some (Sum.inr v)
  | DataState.allD vs _ => some (Sum.inl vs)

/-- Embeds progress reporting as wired by `LF1._init_params_and_progress`
(lf.py lines 276-283): a steady session gets `_no_report_progress`
(raises NotImplementedError, lf.py lines 251-252; the spec calls this
condition UnsupportedOperation), an unsteady session gets
`_report_progress` (lf.py lines 241-249) which returns 0 while the
"progress" accumulator is still None and the stored value afterwards. -/
def reportProgress (steady : Bool) (cfg : List FieldSpec) (s : SState) : PResult :=
  if steady then PResult.err PyErr.notImplementedError
  else
    match lookupField cfg "progress" with
    | none => PResult.err PyErr.keyError
    | some i =>
      match progressValue (s.fields.getD i (DataState.lastD none 0)) with
      | none => PResult.ok (LVal.scal (SVal.num 0))
      | some (Sum.inr v) => PResult.ok v
      | some (Sum.inl vs) => PResult.okList vs

/-- Embeds `Parser.process_line` of lf_helpers.py (lines 171-183):
`conv` is the concrete `_process_line` of the parser kind (`none`
modelling a raised ValueError), `exclude` the constructor argument of
the same name (default None), `nan` the kind's `_nan` sentinel.  On a
ValueError the source evaluates `raw_line in self._exclude`: with
`exclude = None` that membership test itself raises TypeError; otherwise
an excluded raw yields the sentinel and anything else re-raises the
ValueError. -/
def processLineE (conv : String → Option LVal) (exclude : Option (List String))
    (nan : LVal) (raw : String) : PResult :=
  match conv raw with
  | some v => PResult.ok v
  | none =>
    match exclude with
    | none => PResult.err PyErr.typeError
    | some ex => if raw ∈ ex then PResult.ok nan else PResult.err PyErr.valueError

/-- Embeds `StringParser._process_line` (lf_helpers.py lines 296-301):
the identity conversion, which never raises. -/
def stringConv (raw : String) : Option LVal :=
  some (LVal.scal (SVal.str raw))

/-- Modelled from Python `int(str)`: optional surrounding whitespace, an
optional sign, then at least one ASCII digit; `none` models the
ValueError on anything else. -/
def pyInt (s : String) : Option ℤ :=
  let t := (((s.toList.dropWhile Char.isWhitespace).reverse.dropWhile Char.isWhitespace).reverse)
  let core : List Char → Option ℕ := fun ds =>
    if ds.isEmpty then none
    else if ds.all Char.isDigit then
      some (ds.foldl (fun acc c => 10 * acc + (c.toNat - 48)) 0)
    else none
  match t with
  | '-' :: ds => (core ds).map (fun n => -(n : ℤ))
  | '+' :: ds => (core ds).map (fun n => (n : ℤ))
  | ds => (core ds).map (fun n => (n : ℤ))

/-- Embeds `TimeDeltaHMSParser._process_line` (lf_helpers.py lines
225-231): split on ":" into exactly hours, minutes, seconds (any other
shape raises ValueError, like the Python tuple unpacking), convert each
with `int`, and build the timedelta (modelled in seconds). -/
def hmsConv (raw : String) : Option LVal :=
  match pySplit raw ":" with
  | [h, m, s] =>
    match pyInt h, pyInt m, pyInt s with
    | some hh, some mm, some ss =>
      some (LVal.scal (SVal.dur ((hh * 3600 + mm * 60 + ss : ℤ) : ℚ)))
    | _, _, _ => none
  | _ => none

/-- Accumulator record of `AllData` in lf_helpers.py (lines 50-58):
header, optional subheaders (set for TimeFloatMult data), the value
list, and the count. -/
structure AllDataS where
  header : String
  subheaders : Option (List String)
  value : List LVal
  no_values : ℕ
deriving DecidableEq

/-- A pandas DataFrame as produced by `AllData.get_value`: ordered
column labels plus rows. -/
structure PdDF where
  cols : List String
  rows : List (List SVal)
deriving DecidableEq

/-- Result of `AllData.get_value`: a DataFrame or a raised exception. -/
inductive PdRes where
  | ok (df : PdDF)
  | err (e : PyErr)
deriving DecidableEq

/-- Embeds `AllData._column_to_remove` (lf_helpers.py line 54). -/
def dupCol : String := "simulated_duplicate"

/-- A stored value as a DataFrame row (`pd.DataFrame(self._value)`): a
TimeFloatMult entry is one row with one cell per scalar, any scalar is a
single-cell row. -/
def toRow : LVal → List SVal
  | LVal.scal v => [v]
  | LVal.multi xs => xs

/-- Pads a row to the DataFrame's column count (pandas fills missing
cells of ragged rows with NaN). -/
def padRow (n : ℕ) (r : List SVal) : List SVal :=
  r ++ List.replicate (n - r.length) SVal.nanNum

/-- Embeds `AllData.get_value` on its default-argument path
(`index_key = None`; lf_helpers.py lines 60-89), returning the produced
DataFrame (or raised exception) together with the accumulator state
after the call.  With subheaders present, `set_axis` raises ValueError
on a length mismatch; when the removable column is among the
subheaders, `df.drop` removes every column with that label and
`self._subheaders.remove` deletes the first occurrence from the stored
subheader list, mutating the accumulator.  Without subheaders the first
(integer-labelled) column is renamed to the header. -/
def getValue (d : AllDataS) : PdRes × AllDataS :=
  let rows := d.value.map toRow
  let ncols := List.foldl max 0 (rows.map List.length)
  if ncols = 0 then (PdRes.ok (PdDF.mk [] []), d)
  else
    match d.subheaders with
    | some sh =>
      if sh.length = ncols then
        if dupCol ∈ sh then
          (PdRes.ok
            (PdDF.mk (sh.filter (fun c => if c = dupCol then false else true))
              (rows.map (fun r =>
                (List.zip (padRow ncols r) sh).filterMap
                  (fun p => if p.2 = dupCol then none else some p.1)))),
            AllDataS.mk d.header (some (sh.erase dupCol)) d.value d.no_values)
        else (PdRes.ok (PdDF.mk sh (rows.map (padRow ncols))), d)
      else (PdRes.err PyErr.valueError, d)
    | none =>
      let cols0 := (List.range ncols).map (fun i => toString i)
      (PdRes.ok
        (PdDF.mk (cols0.map (fun c => if c = "0" then d.header else c))
          (rows.map (padRow ncols))),
        d)

/-- Parse function used by the concrete example configurations: keeps
the residual as a string value (the behaviour of a StringParser line
type). -/
def strParse : String → LVal := fun s => LVal.scal (SVal.str s)

/-- Missing sentinel used by the concrete example configurations. -/
def nanF : LVal := LVal.scal SVal.nanNum

/-- Example iteration-marker line type ("elapsed"-like): type "many",
index flag set. -/
def fE : FieldSpec := ⟨"elapsed", "E ", DType.many, true, false, LVal.scal SVal.naT, none, strParse⟩

/-- Example ordinary "many" line type. -/
def fI : FieldSpec := ⟨"iflow", "I ", DType.many, false, false, nanF, none, strParse⟩

/-- Two-entry registry with an iteration marker, used to exercise
incremental resumption. -/
def cfgEx1 : List FieldSpec := [fE, fI]

/-- Example line type whose prefix "A" is a strict prefix of the next
entry's prefix "AB". -/
def fA1 : FieldSpec := ⟨"a", "A", DType.many, false, false, nanF, none, strParse⟩

/-- Example line type with prefix "AB". -/
def fAB : FieldSpec := ⟨"ab", "AB", DType.many, false, false, nanF, none, strParse⟩

/-- Registry with overlapping prefixes ("A" declared before "AB"). -/
def cfgEx2 : List FieldSpec := [fA1, fAB]

/-- Example "many" line type that can occur several times per
iteration. -/
def fX : FieldSpec := ⟨"x", "X ", DType.many, false, false, nanF, none, strParse⟩

/-- Registry used to produce a final-sync deficit of three. -/
def cfgEx3 : List FieldSpec := [fX, fE]

/-- Log content whose "x" column ends up three entries longer than the
"elapsed" column. -/
def fileEx3 : List String := ["X a", "X b", "X c", "X d", "E e"]

/-- Example "progress" line type: retention "last". -/
def fP : FieldSpec := ⟨"progress", "P ", DType.last, false, false, nanF, none, strParse⟩

/-- Registry of a session with a progress line type. -/
def cfgP : List FieldSpec := [fP, fI]

/-- Example marker plus a before-index "many" line type, used to
exercise mid-stream sync. -/
def fB4 : FieldSpec := ⟨"b", "B ", DType.many, false, true, nanF, none, strParse⟩

/-- Registry for the mid-stream sync example. -/
def cfg4 : List FieldSpec := [fE, fB4]

/-- Accumulator whose subheaders contain the removable column. -/
def dEx9 : AllDataS :=
  AllDataS.mk "x" (some ["simulated", "simulated_duplicate"])
    [LVal.multi [SVal.num 1, SVal.num 2]] 1

/-- Predicate packaging the session-state facts that hold throughout any
run started from `initState`: the accumulator list is parallel to the
registry, every "many" line type owns an AllData accumulator, and every
non-index "many" line type's count is at most one below
`no_iters + int(before_index)` (the mid-stream sync re-establishes the
bound each iteration, and a field can fall behind by at most one
iteration between two syncs). -/
def GoodState (cfg : List FieldSpec) (s : SState) : Prop :=
  s.fields.length = cfg.length ∧
  (∀ i f d, cfg.get? i = some f → s.fields.get? i = some d → f.type = DType.many →
    ∃ vs n, d = DataState.allD vs n) ∧
  (∀ i f d, cfg.get? i = some f → s.fields.get? i = some d → f.index = false →
    f.type = DType.many → s.no_iters + boolNat f.before_index ≤ d.no_values + 1)

/-- States a session can be in when `_sync_cols` fires: the initial
state, the state after any complete raw line, the state after any single
registry-entry step of the current line, and the state right after the
accumulator update of the current registry entry (which is exactly where
the sync of an iteration-marker line is invoked, lf.py lines 105-110). -/
inductive ReachMid (cfg : List FieldSpec) : SState → Prop where
  | init : ReachMid cfg (initState cfg)
  | line (s : SState) (l : String) (h : ReachMid cfg s) : ReachMid cfg (processLine cfg s l)
  | field (s : SState) (l : String) (i : ℕ) (h : ReachMid cfg s) :
      ReachMid cfg (procOne cfg l s i)
  | upd (s : SState) (i : ℕ) (v : LVal) (h : ReachMid cfg s) :
      ReachMid cfg
        ⟨s.fields.set i ((s.fields.getD i (DataState.allD [] 0)).update v),
          s.no_lines, s.no_iters⟩

theorem lget_lt {α : Type _} {l : List α} {i : ℕ} {x : α} (h : l.get? i = some x) :
    i < l.length := by
  induction l generalizing i with
  | nil => simp [List.get?] at h
  | cons a as ih =>
    cases i with
    | zero => simp
    | succ n =>
      simp only [List.get?] at h
      exact Nat.succ_lt_succ (ih h)

theorem lget_of_lt {α : Type _} {l : List α} {i : ℕ} (h : i < l.length) :
    ∃ x, l.get? i = some x := by
  induction l generalizing i with
  | nil => simp at h
  | cons a as ih =>
    cases i with
    | zero => exact ⟨a, rfl⟩
    | succ n => exact ih (Nat.lt_of_succ_lt_succ h)

theorem lget_set_self {α : Type _} {l : List α} {i : ℕ} (a : α) (h : i < l.length) :
    (l.set i a).get? i = some a := by
  induction l generalizing i with
  | nil => simp at h
  | cons x xs ih =>
    cases i with
    | zero => rfl
    | succ n => exact ih (Nat.lt_of_succ_lt_succ h)

theorem lget_set_ne {α : Type _} {l : List α} {i j : ℕ} (a : α) (h : i ≠ j) :
    (l.set i a).get? j = l.get? j := by
  induction l generalizing i j with
  | nil => simp
  | cons x xs ih =>
    cases i with
    | zero =>
      cases j with
      | zero => exact absurd rfl h
      | succ m => rfl
    | succ n =>
      cases j with
      | zero => rfl
      | succ m => exact ih (fun hn => h (by rw [hn]))

theorem lget_zipWith {α β γ : Type _} (f : α → β → γ) {l₁ : List α} {l₂ : List β} {i : ℕ}
    {x : α} {y : β} (h₁ : l₁.get? i = some x) (h₂ : l₂.get? i = some y) :
    (List.zipWith f l₁ l₂).get? i = some (f x y) := by
  induction l₁ generalizing l₂ i with
  | nil => simp [List.get?] at h₁
  | cons a as ih =>
    cases l₂ with
    | nil => simp [List.get?] at h₂
    | cons b bs =>
      cases i with
      | zero =>
        simp only [List.get?] at h₁ h₂
        cases h₁; cases h₂; rfl
      | succ n =>
        simp only [List.get?] at h₁ h₂ ⊢
        exact ih h₁ h₂

theorem lget_map {α β : Type _} (g : α → β) (l : List α) (i : ℕ) :
    (l.map g).get? i = (l.get? i).map g := by
  induction l generalizing i with
  | nil => rfl
  | cons a as ih =>
    cases i with
    | zero => rfl
    | succ n => exact ih n

theorem lgetD_of_get {α : Type _} {l : List α} {i : ℕ} {x : α} (d : α)
    (h : l.get? i = some x) : l.getD i d = x := by
  rw [List.get?_eq_getElem?] at h
  simp [List.getD, h]

/-- Claim C7 (code_bug): the spec says the Value Parser receives the
whole remainder of the line after the leading prefix occurrence (left
whitespace stripped), even when the prefix reoccurs inside the content.
The code computes `raw_line.split(prefix)[1].lstrip()`, which stops at
the second occurrence of the prefix: on the line "T: a T: b" with prefix
"T: " the parser receives "a ", not the whole remainder "a T: b"
(which is already left-stripped).  This contradicts the code's own
comment "store everything after prefix" (lf.py line 103). -/
theorem end_of_line_truncates_at_second_occurrence :
    pyStartsWith "T: a T: b" "T: " = true ∧
    endOfLine "T: a T: b" "T: " = "a " ∧
    pyLstrip "a T: b" = "a T: b" ∧
    endOfLine "T: a T: b" "T: " ≠ "a T: b" := by decide

/-- Claim C5 counterexample: a StringParser-kind field with exclusion
set \x7b"none"\x7d handed the excluded residual "none" returns the converted
residual itself, not the empty-string missing sentinel — the tolerance
branch only runs when the conversion raises, and the string conversion
never raises. -/
theorem excluded_convertible_value_not_sentinel :
    processLineE stringConv (some ["none"]) (LVal.scal (SVal.str "")) "none" =
      PResult.ok (LVal.scal (SVal.str "none")) ∧
    PResult.ok (LVal.scal (SVal.str "none")) ≠ PResult.ok (LVal.scal (SVal.str "")) := by
  decide

/-- Claim C5 (amended): for every parser kind and field with a non-empty
exclusion set, a residual that belongs to the exclusion set never raises
MalformedValue (the re-raised ValueError) and never raises TypeError;
it yields the field's missing sentinel exactly when the conversion
fails, and the converted value when the conversion succeeds. -/
theorem excluded_raw_never_malformed (conv : String → Option LVal) (exclude : List String)
    (nan : LVal) (raw : String) (h : raw ∈ exclude) :
    processLineE conv (some exclude) nan raw ≠ PResult.err PyErr.valueError ∧
    processLineE conv (some exclude) nan raw ≠ PResult.err PyErr.typeError ∧
    (conv raw = none → processLineE conv (some exclude) nan raw = PResult.ok nan) ∧
    (∀ v, conv raw = some v → processLineE conv (some exclude) nan raw = PResult.ok v) := by
  have hmain : processLineE conv (some exclude) nan raw =
      match conv raw with
      | some v => PResult.ok v
      | none => PResult.ok nan := by
    unfold processLineE
    cases conv raw with
    | some v => rfl
    | none => simp [h]
  refine ⟨?_, ?_, ?_, ?_⟩
  · rw [hmain]; cases conv raw <;> simp
  · rw [hmain]; cases conv raw <;> simp
  · intro hn; rw [hmain, hn]
  · intro w hw; rw [hmain, hw]

/-- Witness for `excluded_raw_never_malformed` at a concrete input: the
HMS duration parser with exclusion set \x7b"NaN"\x7d maps the excluded
residual "NaN" to the NaT sentinel. -/
theorem excluded_raw_never_malformed_witness :
    hmsConv "NaN" = none ∧
    processLineE hmsConv (some ["NaN"]) (LVal.scal SVal.naT) "NaN" =
      PResult.ok (LVal.scal SVal.naT) :=
  ⟨by decide,
    (excluded_raw_never_malformed hmsConv ["NaN"] (LVal.scal SVal.naT) "NaN"
      (by decide)).2.2.1 (by decide)⟩

/-- Claim C10 (confirmed): with `exclude` left at its None default, a
failed conversion reaches the membership test `raw_line in self._exclude`
on None, which raises TypeError instead of propagating the original
ValueError (the MalformedValue condition). -/
theorem no_exclude_failure_raises_typeerror (conv : String → Option LVal) (nan : LVal)
    (raw : String) (h : conv raw = none) :
    processLineE conv none nan raw = PResult.err PyErr.typeError ∧
    PResult.err PyErr.typeError ≠ PResult.err PyErr.valueError := by
  refine ⟨?_, by decide⟩
  simp only [processLineE, h]

/-- Witness for `no_exclude_failure_raises_typeerror`: the HMS duration
parser without an exclusion set raises TypeError on the unconvertible
residual "steady". -/
theorem no_exclude_failure_raises_typeerror_witness :
    processLineE hmsConv none nanF "steady" = PResult.err PyErr.typeError ∧
    PResult.err PyErr.typeError ≠ PResult.err PyErr.valueError :=
  no_exclude_failure_raises_typeerror hmsConv nanF "steady" (by decide)

/-- Claim C1 counterexample: with the registry `cfgEx1` (marker
"elapsed", field "iflow") and the raw-line batches A = ["E 1"] and
B = ["I 5"], reading A and then A+B with the default final steps yields
a different Result Table than reading A+B in one call: the first read's
final sync pads "iflow", and the padding persists, giving two rows
instead of one. -/
theorem resume_with_final_sync_differs :
    createDataframe cfgEx1
        (readLF cfgEx1 (readLF cfgEx1 (initState cfgEx1) ["E 1"] false false)
          ["E 1", "I 5"] false false) ≠
      createDataframe cfgEx1 (readLF cfgEx1 (initState cfgEx1) ["E 1", "I 5"] false false) := by
  decide

/-- Claim C2 counterexample: in the registry `cfgEx2` the first-declared
prefix "A" is a strict prefix of the second entry's prefix "AB"; the
line "ABc" starts with both, and after processing it BOTH accumulators
hold one value — the line is recorded by two fields, not only the
first-declared match (the field loop of `_update_line_types` has no
break). -/
theorem overlapping_prefixes_both_record :
    pyStartsWith "ABc" fA1.pfx = true ∧
    pyStartsWith "ABc" fAB.pfx = true ∧
    ((processLine cfgEx2 (initState cfgEx2) "ABc").fields.getD 0
        (DataState.allD [] 0)).no_values = 1 ∧
    ((processLine cfgEx2 (initState cfgEx2) "ABc").fields.getD 1
        (DataState.allD [] 0)).no_values = 1 := by decide

/-- Claim C3 counterexample: after the full stream `fileEx3` the
"elapsed" column has length 1 while `max_length` is 4 (deficit 3);
`_final_sync_cols` (a total function in this embedding, mirroring the
source, which raises nothing) leaves the column at length 1 — it is
neither padded to `max_length` nor does any AlignmentViolation occur. -/
theorem deficit_three_left_unpadded :
    manyMaxLen cfgEx3 (readLF cfgEx3 (initState cfgEx3) fileEx3 false false).fields = 4 ∧
    ((readLF cfgEx3 (initState cfgEx3) fileEx3 false false).fields.getD 1
        (DataState.allD [] 0)).value_len = 1 := by decide

/-- Claim C9 counterexample: `AllData.get_value` on an accumulator whose
subheader list contains "simulated_duplicate" removes that entry from
the stored subheader list — deriving the table mutates the accumulator
state. -/
theorem get_value_mutates_subheaders :
    (getValue dEx9).2 ≠ dEx9 ∧
    (getValue dEx9).2.subheaders = some ["simulated"] := by decide

theorem finalOne_allD (m : ℕ) (f : FieldSpec) (vs : List LVal) (n : ℕ)
    (hm : f.type = DType.many) :
    finalOne m f (DataState.allD vs n) =
      (if (vs.length : ℤ) = (m : ℤ) - 1 then DataState.allD (vs ++ [f.nan]) (n + 1)
       else if (vs.length : ℤ) = (m : ℤ) - 2 then
         DataState.allD (vs ++ [f.nan] ++ [f.nan]) (n + 2)
       else DataState.allD vs n) := by
  unfold finalOne
  rw [if_pos hm]
  rfl

/-- Claim C3 (amended): after the full stream is consumed, the final
sync pads every AllAppend field whose length is exactly maxLength-1 or
maxLength-2 up to maxLength; a field whose length is anything else
(in particular a deficit of 3 or more) is left completely unchanged —
no AlignmentViolation or other error is raised by `_final_sync_cols`. -/
theorem final_sync_padding_rule (cfg : List FieldSpec) (s : SState) (i : ℕ) (f : FieldSpec)
    (vs : List LVal) (n : ℕ) (hf : cfg.get? i = some f)
    (hd : s.fields.get? i = some (DataState.allD vs n)) (hm : f.type = DType.many) :
    (finalSyncCols cfg s).fields.get? i =
      some (finalOne (manyMaxLen cfg s.fields) f (DataState.allD vs n)) ∧
    ((vs.length : ℤ) = (manyMaxLen cfg s.fields : ℤ) - 1 →
      (finalOne (manyMaxLen cfg s.fields) f (DataState.allD vs n)).value_len =
        manyMaxLen cfg s.fields) ∧
    ((vs.length : ℤ) = (manyMaxLen cfg s.fields : ℤ) - 2 →
      (finalOne (manyMaxLen cfg s.fields) f (DataState.allD vs n)).value_len =
        manyMaxLen cfg s.fields) ∧
    ((vs.length : ℤ) ≠ (manyMaxLen cfg s.fields : ℤ) - 1 →
      (vs.length : ℤ) ≠ (manyMaxLen cfg s.fields : ℤ) - 2 →
      finalOne (manyMaxLen cfg s.fields) f (DataState.allD vs n) = DataState.allD vs n) := by
  refine ⟨lget_zipWith _ hf hd, ?_, ?_, ?_⟩
  · intro hlen
    rw [finalOne_allD _ _ _ _ hm, if_pos hlen]
    simp only [DataState.value_len, List.length_append, List.length_singleton]
    omega
  · intro hlen
    have hne : ¬ ((vs.length : ℤ) = (manyMaxLen cfg s.fields : ℤ) - 1) := by omega
    rw [finalOne_allD _ _ _ _ hm, if_neg hne, if_pos hlen]
    simp only [DataState.value_len, List.length_append, List.length_singleton]
    omega
  · intro h1 h2
    rw [finalOne_allD _ _ _ _ hm, if_neg h1, if_neg h2]

/-- Witness for `final_sync_padding_rule`: in the two-entry registry
`cfgEx3` with accumulators of lengths 2 and 1, the shorter column is
padded by final sync to the maximum length 2. -/
theorem final_sync_padding_rule_witness :
    (finalSyncCols cfgEx3 ⟨[DataState.allD [nanF, nanF] 2, DataState.allD [nanF] 1], 3, 1⟩).fields.get? 1 =
      some (finalOne 2 fE (DataState.allD [nanF] 1)) ∧
    (finalOne 2 fE (DataState.allD [nanF] 1)).value_len = 2 := by
  have h := final_sync_padding_rule cfgEx3
    ⟨[DataState.allD [nanF, nanF] 2, DataState.allD [nanF] 1], 3, 1⟩ 1 fE [nanF] 1
    rfl rfl rfl
  exact ⟨h.1, h.2.1 (by decide)⟩

theorem procOne_no_lines (cfg : List FieldSpec) (line : String) (s : SState) (i : ℕ) :
    (procOne cfg line s i).no_lines = s.no_lines := by
  unfold procOne
  cases cfg.get? i with
  | none => rfl
  | some f =>
    dsimp only
    split_ifs <;> rfl

theorem procOne_no_iters_mono (cfg : List FieldSpec) (line : String) (s : SState) (i : ℕ) :
    s.no_iters ≤ (procOne cfg line s i).no_iters := by
  unfold procOne
  cases cfg.get? i with
  | none => exact Nat.le_refl _
  | some f =>
    dsimp only
    split_ifs <;> simp

theorem procFrom_no_lines (cfg : List FieldSpec) (line : String) (js : List ℕ) (s : SState) :
    (procFrom cfg line s js).no_lines = s.no_lines := by
  induction js generalizing s with
  | nil => rfl
  | cons j js ih => rw [procFrom, ih, procOne_no_lines]

theorem procFrom_no_iters_mono (cfg : List FieldSpec) (line : String) (js : List ℕ)
    (s : SState) : s.no_iters ≤ (procFrom cfg line s js).no_iters := by
  induction js generalizing s with
  | nil => exact Nat.le_refl _
  | cons j js ih =>
    exact Nat.le_trans (procOne_no_iters_mono cfg line s j) (ih _)

theorem processLine_no_lines (cfg : List FieldSpec) (s : SState) (line : String) :
    (processLine cfg s line).no_lines = s.no_lines + 1 := by
  unfold processLine
  dsimp only
  rw [procFrom_no_lines]

theorem processLine_no_iters_mono (cfg : List FieldSpec) (s : SState) (line : String) :
    s.no_iters ≤ (processLine cfg s line).no_iters := by
  unfold processLine
  dsimp only
  exact procFrom_no_iters_mono cfg line _ s

theorem processLines_no_lines (cfg : List FieldSpec) (s : SState) (ls : List String) :
    (processLines cfg s ls).no_lines = s.no_lines + ls.length := by
  induction ls generalizing s with
  | nil => rfl
  | cons l ls ih =>
    show (processLines cfg (processLine cfg s l) ls).no_lines = _
    rw [ih, processLine_no_lines, List.length_cons]
    omega

theorem processLines_no_iters_mono (cfg : List FieldSpec) (s : SState) (ls : List String) :
    s.no_iters ≤ (processLines cfg s ls).no_iters := by
  induction ls generalizing s with
  | nil => exact Nat.le_refl _
  | cons l ls ih =>
    exact Nat.le_trans (processLine_no_iters_mono cfg s l) (ih _)

theorem finalSyncCols_no_lines (cfg : List FieldSpec) (s : SState) :
    (finalSyncCols cfg s).no_lines = s.no_lines := rfl

theorem finalSyncCols_no_iters (cfg : List FieldSpec) (s : SState) :
    (finalSyncCols cfg s).no_iters = s.no_iters := rfl

/-- Claim C8 (confirmed): across any non-forced incremental read the
cursor counters `_no_lines` and `_no_iters` never decrease;
`_update_line_types` increments `_no_lines` exactly once per processed
raw line whether or not the line matched any line type; and a forced
re-read is exactly a read from the freshly initialised (zeroed) state —
the only way the counters go back to zero. -/
theorem counters_monotone_and_count_lines (cfg : List FieldSpec) (s : SState)
    (file : List String) (suppress : Bool) :
    s.no_lines ≤ (readLF cfg s file false suppress).no_lines ∧
    s.no_iters ≤ (readLF cfg s file false suppress).no_iters ∧
    (∀ ls, (processLines cfg s ls).no_lines = s.no_lines + ls.length) ∧
    (∀ file2 sup2, readLF cfg s file2 true sup2 = readLF cfg (initState cfg) file2 false sup2) := by
  refine ⟨?_, ?_, fun ls => processLines_no_lines cfg s ls, fun file2 sup2 => rfl⟩
  · cases suppress with
    | false =>
      show s.no_lines ≤
        (finalSyncCols cfg (processLines cfg s (List.drop s.no_lines file))).no_lines
      rw [finalSyncCols_no_lines, processLines_no_lines]
      omega
    | true =>
      show s.no_lines ≤ (processLines cfg s (List.drop s.no_lines file)).no_lines
      rw [processLines_no_lines]
      omega
  · cases suppress with
    | false =>
      show s.no_iters ≤
        (finalSyncCols cfg (processLines cfg s (List.drop s.no_lines file))).no_iters
      rw [finalSyncCols_no_iters]
      exact processLines_no_iters_mono cfg s _
    | true =>
      show s.no_iters ≤ (processLines cfg s (List.drop s.no_lines file)).no_iters
      exact processLines_no_iters_mono cfg s _

/-- Claim C1 (amended): resuming is exact when the intermediate read
suppresses the final steps: for every registry and split A/B,
`read(A, suppress_final_steps)` followed by `read(A+B)` produces exactly
the same session state — and hence the same Result Table — as a single
`read(A+B)`.  (With final steps enabled on the intermediate read the
final-sync padding persists and the tables can differ, as
`resume_with_final_sync_differs` shows.) -/
theorem resume_suppressed_matches_single_read (cfg : List FieldSpec) (A B : List String) :
    readLF cfg (readLF cfg (initState cfg) A false true) (A ++ B) false false =
      readLF cfg (initState cfg) (A ++ B) false false ∧
    createDataframe cfg
        (readLF cfg (readLF cfg (initState cfg) A false true) (A ++ B) false false) =
      createDataframe cfg (readLF cfg (initState cfg) (A ++ B) false false) := by
  have hstate : readLF cfg (initState cfg) A false true = processLines cfg (initState cfg) A := rfl
  have hnl : (processLines cfg (initState cfg) A).no_lines = A.length := by
    have h := processLines_no_lines cfg (initState cfg) A
    simpa [initState] using h
  have hmain : readLF cfg (processLines cfg (initState cfg) A) (A ++ B) false false =
      readLF cfg (initState cfg) (A ++ B) false false := by
    have h1 : readLF cfg (processLines cfg (initState cfg) A) (A ++ B) false false =
        finalSyncCols cfg (processLines cfg (processLines cfg (initState cfg) A)
          (List.drop (processLines cfg (initState cfg) A).no_lines (A ++ B))) := rfl
    have h2 : readLF cfg (initState cfg) (A ++ B) false false =
        finalSyncCols cfg (processLines cfg (initState cfg) (A ++ B)) := rfl
    rw [h1, h2, hnl, List.drop_left]
    unfold processLines
    rw [List.foldl_append]
  constructor
  · rw [hstate]; exact hmain
  · rw [hstate, hmain]

theorem procOne_none (cfg : List FieldSpec) (line : String) (s : SState) (j : ℕ)
    (h : cfg.get? j = none) : procOne cfg line s j = s := by
  rw [List.get?_eq_getElem?] at h
  simp [procOne, h]

theorem procOne_nomatch (cfg : List FieldSpec) (line : String) (s : SState) (j : ℕ)
    (f : FieldSpec) (h : cfg.get? j = some f) (hp : pyStartsWith line f.pfx = false) :
    procOne cfg line s j = s := by
  rw [List.get?_eq_getElem?] at h
  simp [procOne, h, hp]

theorem procOne_match_noidx (cfg : List FieldSpec) (line : String) (s : SState) (j : ℕ)
    (f : FieldSpec) (h : cfg.get? j = some f) (hp : pyStartsWith line f.pfx = true)
    (hi : f.index = false) :
    procOne cfg line s j =
      ⟨s.fields.set j ((s.fields.getD j (DataState.allD [] 0)).update
          (f.parse (endOfLine line f.pfx))), s.no_lines, s.no_iters⟩ := by
  rw [List.get?_eq_getElem?] at h
  simp [procOne, h, hp, hi]

theorem procOne_match_idx (cfg : List FieldSpec) (line : String) (s : SState) (j : ℕ)
    (f : FieldSpec) (h : cfg.get? j = some f) (hp : pyStartsWith line f.pfx = true)
    (hi : f.index = true) :
    procOne cfg line s j =
      ⟨syncFields cfg s.no_iters
          (s.fields.set j ((s.fields.getD j (DataState.allD [] 0)).update
            (f.parse (endOfLine line f.pfx)))), s.no_lines, s.no_iters + 1⟩ := by
  rw [List.get?_eq_getElem?] at h
  simp [procOne, h, hp, hi]

theorem syncOne_last_type (it : ℕ) (f : FieldSpec) (d : DataState)
    (ht : f.type = DType.last) : syncOne it f d = d := by
  unfold syncOne
  split_ifs with h1 h2
  · exact absurd h2.1 (by simp [ht])
  · rfl
  · rfl

theorem syncOne_allD_mono (it : ℕ) (f : FieldSpec) (vs : List LVal) (n : ℕ) :
    ∃ vs2 n2, syncOne it f (DataState.allD vs n) = DataState.allD vs2 n2 ∧ n ≤ n2 := by
  unfold syncOne
  split_ifs with h1 h2
  · exact ⟨vs ++ [f.nan], n + 1, rfl, Nat.le_succ n⟩
  · exact ⟨vs, n, rfl, Nat.le_refl n⟩
  · exact ⟨vs, n, rfl, Nat.le_refl n⟩

theorem procOne_fields_length (cfg : List FieldSpec) (line : String) (s : SState) (j : ℕ)
    (hw : s.fields.length = cfg.length) :
    (procOne cfg line s j).fields.length = cfg.length := by
  cases hc : cfg.get? j with
  | none => rw [procOne_none cfg line s j hc]; exact hw
  | some fj =>
    cases hp : pyStartsWith line fj.pfx with
    | false => rw [procOne_nomatch cfg line s j fj hc hp]; exact hw
    | true =>
      cases hi : fj.index with
      | false =>
        rw [procOne_match_noidx cfg line s j fj hc hp hi]
        simpa using hw
      | true =>
        rw [procOne_match_idx cfg line s j fj hc hp hi]
        show (syncFields cfg s.no_iters _).length = cfg.length
        unfold syncFields
        rw [List.length_zipWith, List.length_set, hw, Nat.min_self]

theorem procOne_all_count (cfg : List FieldSpec) (line : String) (j : ℕ) (s : SState)
    (i : ℕ) (vs : List LVal) (n : ℕ) (hw : s.fields.length = cfg.length)
    (hd : s.fields.get? i = some (DataState.allD vs n)) :
    ∃ vs2 n2, (procOne cfg line s j).fields.get? i = some (DataState.allD vs2 n2) ∧
      n ≤ n2 := by
  cases hc : cfg.get? j with
  | none => rw [procOne_none cfg line s j hc]; exact ⟨vs, n, hd, Nat.le_refl n⟩
  | some fj =>
    cases hp : pyStartsWith line fj.pfx with
    | false => rw [procOne_nomatch cfg line s j fj hc hp]; exact ⟨vs, n, hd, Nat.le_refl n⟩
    | true =>
      have hset : ∃ vs1 n1,
          (s.fields.set j ((s.fields.getD j (DataState.allD [] 0)).update
            (fj.parse (endOfLine line fj.pfx)))).get? i = some (DataState.allD vs1 n1) ∧
          n ≤ n1 := by
        by_cases hij : j = i
        · subst hij
          rw [lgetD_of_get _ hd, lget_set_self _ (lget_lt hd)]
          exact ⟨vs ++ [fj.parse (endOfLine line fj.pfx)], n + 1, rfl, Nat.le_succ n⟩
        · rw [lget_set_ne _ hij]
          exact ⟨vs, n, hd, Nat.le_refl n⟩
      obtain ⟨vs1, n1, hh, hn1⟩ := hset
      cases hi : fj.index with
      | false =>
        rw [procOne_match_noidx cfg line s j fj hc hp hi]
        exact ⟨vs1, n1, hh, hn1⟩
      | true =>
        rw [procOne_match_idx cfg line s j fj hc hp hi]
        have hilt : i < cfg.length := by
          have h1 := lget_lt hh
          rw [List.length_set, hw] at h1
          exact h1
        obtain ⟨fi, hfi⟩ := lget_of_lt hilt
        obtain ⟨vs2, n2, he, hn2⟩ := syncOne_allD_mono s.no_iters fi vs1 n1
        refine ⟨vs2, n2, ?_, Nat.le_trans hn1 hn2⟩
        show (syncFields cfg s.no_iters _).get? i = _
        unfold syncFields
        rw [lget_zipWith _ hfi hh, he]

theorem procFrom_fields_length (cfg : List FieldSpec) (line : String) (js : List ℕ) :
    ∀ s : SState, s.fields.length = cfg.length →
      (procFrom cfg line s js).fields.length = cfg.length := by
  induction js with
  | nil => intro s hw; exact hw
  | cons j js ih =>
    intro s hw
    simp only [procFrom]
    exact ih _ (procOne_fields_length cfg line s j hw)

theorem procFrom_all_count (cfg : List FieldSpec) (line : String) (js : List ℕ) :
    ∀ (s : SState) (i : ℕ) (vs : List LVal) (n : ℕ), s.fields.length = cfg.length →
      s.fields.get? i = some (DataState.allD vs n) →
      ∃ vs2 n2, (procFrom cfg line s js).fields.get? i = some (DataState.allD vs2 n2) ∧
        n ≤ n2 := by
  induction js with
  | nil => intro s i vs n _ hd; exact ⟨vs, n, hd, Nat.le_refl n⟩
  | cons j js ih =>
    intro s i vs n hw hd
    simp only [procFrom]
    obtain ⟨vs1, n1, hh, hn1⟩ := procOne_all_count cfg line j s i vs n hw hd
    obtain ⟨vs2, n2, hh2, hn2⟩ :=
      ih (procOne cfg line s j) i vs1 n1 (procOne_fields_length cfg line s j hw) hh
    exact ⟨vs2, n2, hh2, Nat.le_trans hn1 hn2⟩

theorem procOne_self_match (cfg : List FieldSpec) (line : String) (s : SState) (i : ℕ)
    (f : FieldSpec) (vs : List LVal) (n : ℕ) (hw : s.fields.length = cfg.length)
    (hf : cfg.get? i = some f) (hd : s.fields.get? i = some (DataState.allD vs n))
    (hp : pyStartsWith line f.pfx = true) :
    ∃ vs1 n1, (procOne cfg line s i).fields.get? i = some (DataState.allD vs1 n1) ∧
      n + 1 ≤ n1 := by
  cases hi : f.index with
  | false =>
    rw [procOne_match_noidx cfg line s i f hf hp hi]
    refine ⟨vs ++ [f.parse (endOfLine line f.pfx)], n + 1, ?_, Nat.le_refl _⟩
    show (s.fields.set i _).get? i = _
    rw [lgetD_of_get _ hd, lget_set_self _ (lget_lt hd)]
    rfl
  | true =>
    rw [procOne_match_idx cfg line s i f hf hp hi]
    have hh : (s.fields.set i ((s.fields.getD i (DataState.allD [] 0)).update
        (f.parse (endOfLine line f.pfx)))).get? i =
        some (DataState.allD (vs ++ [f.parse (endOfLine line f.pfx)]) (n + 1)) := by
      rw [lgetD_of_get _ hd, lget_set_self _ (lget_lt hd)]
      rfl
    obtain ⟨vs2, n2, he, hn2⟩ :=
      syncOne_allD_mono s.no_iters f (vs ++ [f.parse (endOfLine line f.pfx)]) (n + 1)
    refine ⟨vs2, n2, ?_, hn2⟩
    show (syncFields cfg s.no_iters _).get? i = _
    unfold syncFields
    rw [lget_zipWith _ hf hh, he]

theorem procFrom_records (cfg : List FieldSpec) (line : String) (js : List ℕ) :
    ∀ (s : SState) (i : ℕ) (f : FieldSpec) (vs : List LVal) (n : ℕ),
      s.fields.length = cfg.length → cfg.get? i = some f →
      s.fields.get? i = some (DataState.allD vs n) → i ∈ js →
      pyStartsWith line f.pfx = true →
      ∃ vs2 n2, (procFrom cfg line s js).fields.get? i = some (DataState.allD vs2 n2) ∧
        n + 1 ≤ n2 := by
  induction js with
  | nil => intro s i f vs n _ _ _ hmem _; cases hmem
  | cons j js ih =>
    intro s i f vs n hw hf hd hmem hp
    simp only [procFrom]
    by_cases hij : j = i
    · subst hij
      obtain ⟨vs1, n1, hh, hn1⟩ := procOne_self_match cfg line s j f vs n hw hf hd hp
      obtain ⟨vs2, n2, hh2, hn2⟩ := procFrom_all_count cfg line js (procOne cfg line s j)
        j vs1 n1 (procOne_fields_length cfg line s j hw) hh
      exact ⟨vs2, n2, hh2, by omega⟩
    · have hmem2 : i ∈ js := by
        cases hmem with
        | head => exact absurd rfl hij
        | tail _ h => exact h
      obtain ⟨vs1, n1, hh, hn1⟩ := procOne_all_count cfg line j s i vs n hw hd
      obtain ⟨vs2, n2, hh2, hn2⟩ := ih (procOne cfg line s j) i f vs1 n1
        (procOne_fields_length cfg line s j hw) hf hh hmem2 hp
      exact ⟨vs2, n2, hh2, by omega⟩

/-- Claim C2 (amended): a raw line is recorded by EVERY line type whose
prefix it starts with, in declaration order — not only by the
first-declared match.  The field loop of `_update_line_types` has no
break, so for any registry, any session state whose accumulator list is
parallel to the registry, and any AllAppend line type whose prefix
matches the line, that line type's accumulator grows by at least one
entry when the line is processed (`overlapping_prefixes_both_record`
exhibits two overlapping-prefix fields both recording one line). -/
theorem matching_field_always_records (cfg : List FieldSpec) (s : SState) (line : String)
    (i : ℕ) (f : FieldSpec) (vs : List LVal) (n : ℕ)
    (hw : s.fields.length = cfg.length) (hf : cfg.get? i = some f)
    (hd : s.fields.get? i = some (DataState.allD vs n))
    (hp : pyStartsWith line f.pfx = true) :
    ∃ vs2 n2, (processLine cfg s line).fields.get? i = some (DataState.allD vs2 n2) ∧
      n + 1 ≤ n2 := by
  have hmem : i ∈ List.range cfg.length := List.mem_range.mpr (lget_lt hf)
  exact procFrom_records cfg line (List.range cfg.length) s i f vs n hw hf hd hmem hp

/-- Witness for `matching_field_always_records`: in the
overlapping-prefix registry `cfgEx2`, the second-declared field (prefix
"AB") also records the line "ABc" even though the first-declared field
(prefix "A") already matched it. -/
theorem matching_field_always_records_witness :
    ∃ vs2 n2, (processLine cfgEx2 (initState cfgEx2) "ABc").fields.get? 1 =
      some (DataState.allD vs2 n2) ∧ 0 + 1 ≤ n2 :=
  matching_field_always_records cfgEx2 (initState cfgEx2) "ABc" 1 fAB [] 0 rfl rfl rfl
    (by decide)

/-- Claim C9 (amended): deriving the Result Table is a pure projection
EXCEPT for the one mutation exhibited by `get_value_mutates_subheaders`:
`AllData.get_value` removes "simulated_duplicate" from the stored
subheader list (and drops that column) when it is present.  For every
accumulator whose subheader list does not contain
"simulated_duplicate" — in particular every single-value accumulator —
`get_value` leaves the accumulator unchanged and computing the table
twice yields the same table both times. -/
theorem get_value_pure_without_duplicate_column (d : AllDataS)
    (h : ∀ sh, d.subheaders = some sh → dupCol ∉ sh) :
    (getValue d).2 = d ∧ (getValue ((getValue d).2)).1 = (getValue d).1 := by
  have hstate : (getValue d).2 = d := by
    simp only [getValue]
    by_cases h0 : (List.foldl max 0 ((d.value.map toRow).map List.length)) = 0
    · rw [if_pos h0]
    · rw [if_neg h0]
      cases hs : d.subheaders with
      | none => rfl
      | some sh =>
        dsimp only
        have hd : dupCol ∉ sh := h sh hs
        by_cases hl : sh.length = List.foldl max 0 ((d.value.map toRow).map List.length)
        · rw [if_pos hl, if_neg hd]
        · rw [if_neg hl]
  exact ⟨hstate, by rw [hstate]⟩

/-- Witness for `get_value_pure_without_duplicate_column`: a plain
single-column accumulator is left unchanged by `get_value`. -/
theorem get_value_pure_without_duplicate_column_witness :
    (getValue (AllDataS.mk "stage" none [LVal.scal (SVal.num 3)] 1)).2 =
      AllDataS.mk "stage" none [LVal.scal (SVal.num 3)] 1 :=
  (get_value_pure_without_duplicate_column
    (AllDataS.mk "stage" none [LVal.scal (SVal.num 3)] 1)
    (fun sh hsh => nomatch hsh)).1

theorem processLine_fields_length (cfg : List FieldSpec) (s : SState) (line : String)
    (hw : s.fields.length = cfg.length) :
    (processLine cfg s line).fields.length = cfg.length :=
  procFrom_fields_length cfg line (List.range cfg.length) s hw

theorem processLines_fields_length (cfg : List FieldSpec) (ls : List String) :
    ∀ s : SState, s.fields.length = cfg.length →
      (processLines cfg s ls).fields.length = cfg.length := by
  induction ls with
  | nil => intro s hw; exact hw
  | cons l ls ih =>
    intro s hw
    exact ih (processLine cfg s l) (processLine_fields_length cfg s l hw)

theorem procOne_last_field (cfg : List FieldSpec) (line : String) (s : SState) (j i : ℕ)
    (f : FieldSpec) (v0 : Option LVal) (n0 : ℕ) (hw : s.fields.length = cfg.length)
    (hf : cfg.get? i = some f) (ht : f.type = DType.last)
    (hd : s.fields.get? i = some (DataState.lastD v0 n0)) :
    (procOne cfg line s j).fields.get? i =
      (if j = i ∧ pyStartsWith line f.pfx = true then
        some (DataState.lastD (some (f.parse (endOfLine line f.pfx))) 1)
      else some (DataState.lastD v0 n0)) := by
  cases hc : cfg.get? j with
  | none =>
    rw [procOne_none cfg line s j hc, hd, if_neg]
    intro hand
    rw [hand.1, hf] at hc
    cases hc
  | some fj =>
    by_cases hij : j = i
    · subst hij
      rw [hf] at hc
      injection hc with he
      subst he
      cases hp : pyStartsWith line f.pfx with
      | false =>
        rw [procOne_nomatch cfg line s j f hf hp, hd,
          if_neg (fun hand => Bool.noConfusion hand.2)]
      | true =>
        have hh : (s.fields.set j ((s.fields.getD j (DataState.allD [] 0)).update
            (f.parse (endOfLine line f.pfx)))).get? j =
            some (DataState.lastD (some (f.parse (endOfLine line f.pfx))) 1) := by
          rw [lgetD_of_get _ hd, lget_set_self _ (lget_lt hd)]
          rfl
        cases hi2 : f.index with
        | false =>
          rw [procOne_match_noidx cfg line s j f hf hp hi2, if_pos ⟨rfl, rfl⟩]
          exact hh
        | true =>
          rw [procOne_match_idx cfg line s j f hf hp hi2, if_pos ⟨rfl, rfl⟩]
          show (syncFields cfg s.no_iters _).get? j = _
          unfold syncFields
          rw [lget_zipWith _ hf hh, syncOne_last_type _ _ _ ht]
    · rw [if_neg (fun hand => hij hand.1)]
      cases hp : pyStartsWith line fj.pfx with
      | false => rw [procOne_nomatch cfg line s j fj hc hp]; exact hd
      | true =>
        have hh : (s.fields.set j ((s.fields.getD j (DataState.allD [] 0)).update
            (fj.parse (endOfLine line fj.pfx)))).get? i =
            some (DataState.lastD v0 n0) := by
          rw [lget_set_ne _ hij]
          exact hd
        cases hi2 : fj.index with
        | false => rw [procOne_match_noidx cfg line s j fj hc hp hi2]; exact hh
        | true =>
          rw [procOne_match_idx cfg line s j fj hc hp hi2]
          show (syncFields cfg s.no_iters _).get? i = _
          unfold syncFields
          rw [lget_zipWith _ hf hh, syncOne_last_type _ _ _ ht]

theorem procFrom_last (cfg : List FieldSpec) (line : String) (i : ℕ) (f : FieldSpec)
    (hf : cfg.get? i = some f) (ht : f.type = DType.last) (js : List ℕ) :
    ∀ (s : SState) (v0 : Option LVal) (n0 : ℕ), s.fields.length = cfg.length →
      s.fields.get? i = some (DataState.lastD v0 n0) →
      (procFrom cfg line s js).fields.get? i =
        (if i ∈ js ∧ pyStartsWith line f.pfx = true then
          some (DataState.lastD (some (f.parse (endOfLine line f.pfx))) 1)
        else some (DataState.lastD v0 n0)) := by
  induction js with
  | nil =>
    intro s v0 n0 _ hd
    simpa using hd
  | cons j js ih =>
    intro s v0 n0 hw hd
    simp only [procFrom]
    have hstep := procOne_last_field cfg line s j i f v0 n0 hw hf ht hd
    by_cases hji : j = i ∧ pyStartsWith line f.pfx = true
    · rw [if_pos hji] at hstep
      rw [ih (procOne cfg line s j) (some (f.parse (endOfLine line f.pfx))) 1
        (procOne_fields_length cfg line s j hw) hstep, ite_self,
        if_pos ⟨by rw [← hji.1]; exact List.mem_cons_self j js, hji.2⟩]
    · rw [if_neg hji] at hstep
      rw [ih (procOne cfg line s j) v0 n0 (procOne_fields_length cfg line s j hw) hstep]
      by_cases hm : pyStartsWith line f.pfx = true
      · by_cases hmem : i ∈ js
        · rw [if_pos ⟨hmem, hm⟩, if_pos ⟨List.mem_cons_of_mem j hmem, hm⟩]
        · rw [if_neg (fun h2 => hmem h2.1), if_neg]
          intro h2
          cases h2.1 with
          | head => exact hji ⟨rfl, hm⟩
          | tail _ h3 => exact hmem h3
      · rw [if_neg (fun h2 => hm h2.2), if_neg (fun h2 => hm h2.2)]

theorem processLine_last (cfg : List FieldSpec) (line : String) (i : ℕ) (f : FieldSpec)
    (hf : cfg.get? i = some f) (ht : f.type = DType.last) (s : SState) (v0 : Option LVal)
    (n0 : ℕ) (hw : s.fields.length = cfg.length)
    (hd : s.fields.get? i = some (DataState.lastD v0 n0)) :
    (processLine cfg s line).fields.get? i =
      (if pyStartsWith line f.pfx = true then
        some (DataState.lastD (some (f.parse (endOfLine line f.pfx))) 1)
      else some (DataState.lastD v0 n0)) := by
  have hmem : i ∈ List.range cfg.length := List.mem_range.mpr (lget_lt hf)
  have h := procFrom_last cfg line i f hf ht (List.range cfg.length) s v0 n0 hw hd
  show (procFrom cfg line s (List.range cfg.length)).fields.get? i = _
  rw [h]
  by_cases hm : pyStartsWith line f.pfx = true
  · rw [if_pos ⟨hmem, hm⟩, if_pos hm]
  · rw [if_neg (fun h2 => hm h2.2), if_neg hm]

theorem processLines_last_nomatch (cfg : List FieldSpec) (i : ℕ) (f : FieldSpec)
    (hf : cfg.get? i = some f) (ht : f.type = DType.last) (ls : List String) :
    ∀ (s : SState) (v0 : Option LVal) (n0 : ℕ), s.fields.length = cfg.length →
      s.fields.get? i = some (DataState.lastD v0 n0) →
      (∀ l ∈ ls, pyStartsWith l f.pfx = false) →
      (processLines cfg s ls).fields.get? i = some (DataState.lastD v0 n0) := by
  induction ls with
  | nil => intro s v0 n0 _ hd _; exact hd
  | cons l ls ih =>
    intro s v0 n0 hw hd hno
    have hstep := processLine_last cfg l i f hf ht s v0 n0 hw hd
    rw [if_neg (by rw [hno l (List.mem_cons_self l ls)]; simp)] at hstep
    exact ih (processLine cfg s l) v0 n0 (processLine_fields_length cfg s l hw) hstep
      (fun l2 h2 => hno l2 (List.mem_cons_of_mem l h2))

theorem processLines_last_exists (cfg : List FieldSpec) (i : ℕ) (f : FieldSpec)
    (hf : cfg.get? i = some f) (ht : f.type = DType.last) (ls : List String) :
    ∀ (s : SState) (v0 : Option LVal) (n0 : ℕ), s.fields.length = cfg.length →
      s.fields.get? i = some (DataState.lastD v0 n0) →
      ∃ v1 n1, (processLines cfg s ls).fields.get? i = some (DataState.lastD v1 n1) := by
  induction ls with
  | nil => intro s v0 n0 _ hd; exact ⟨v0, n0, hd⟩
  | cons l ls ih =>
    intro s v0 n0 hw hd
    have hstep := processLine_last cfg l i f hf ht s v0 n0 hw hd
    by_cases hm : pyStartsWith l f.pfx = true
    · rw [if_pos hm] at hstep
      exact ih (processLine cfg s l) _ 1 (processLine_fields_length cfg s l hw) hstep
    · rw [if_neg hm] at hstep
      exact ih (processLine cfg s l) v0 n0 (processLine_fields_length cfg s l hw) hstep

theorem reportProgress_false (cfg : List FieldSpec) (s : SState) :
    reportProgress false cfg s =
      (match lookupField cfg "progress" with
      | none => PResult.err PyErr.keyError
      | some i =>
        match progressValue (s.fields.getD i (DataState.lastD none 0)) with
        | none => PResult.ok (LVal.scal (SVal.num 0))
        | some (Sum.inr v) => PResult.ok v
        | some (Sum.inl vs) => PResult.okList vs) := rfl

/-- Claim C6 (confirmed): progress reporting returns 0 for every session
in which no line matching the progress field's prefix has been
processed, returns the value parsed from the most recent matching line
afterwards, and for a steady session — the configuration without a
progress field — raises the UnsupportedOperation condition
(NotImplementedError in the source) instead of returning a number. -/
theorem report_progress_semantics (cfg : List FieldSpec) (i : ℕ) (f : FieldSpec)
    (hi : lookupField cfg "progress" = some i) (hf : cfg.get? i = some f)
    (ht : f.type = DType.last) :
    (∀ s, reportProgress true cfg s = PResult.err PyErr.notImplementedError) ∧
    (∀ ls, (∀ l ∈ ls, pyStartsWith l f.pfx = false) →
      reportProgress false cfg (processLines cfg (initState cfg) ls) =
        PResult.ok (LVal.scal (SVal.num 0))) ∧
    (∀ pre post lastLine, pyStartsWith lastLine f.pfx = true →
      (∀ l ∈ post, pyStartsWith l f.pfx = false) →
      reportProgress false cfg (processLines cfg (initState cfg) (pre ++ lastLine :: post)) =
        PResult.ok (f.parse (endOfLine lastLine f.pfx))) := by
  have hw0 : (initState cfg).fields.length = cfg.length := by
    show (cfg.map _).length = cfg.length
    rw [List.length_map]
  have hinit : (initState cfg).fields.get? i = some (DataState.lastD none 0) := by
    show (cfg.map _).get? i = _
    rw [lget_map, hf]
    simp [ht]
  refine ⟨fun s => rfl, ?_, ?_⟩
  · intro ls hno
    have h := processLines_last_nomatch cfg i f hf ht ls (initState cfg) none 0 hw0 hinit hno
    rw [reportProgress_false, hi]
    dsimp only
    rw [lgetD_of_get _ h]
    rfl
  · intro pre post lastLine hm hno
    have hsplit : processLines cfg (initState cfg) (pre ++ lastLine :: post) =
        processLines cfg
          (processLine cfg (processLines cfg (initState cfg) pre) lastLine) post := by
      unfold processLines
      rw [List.foldl_append]
      rfl
    obtain ⟨v1, n1, hpre⟩ :=
      processLines_last_exists cfg i f hf ht pre (initState cfg) none 0 hw0 hinit
    have hwpre := processLines_fields_length cfg pre (initState cfg) hw0
    have hline := processLine_last cfg lastLine i f hf ht
      (processLines cfg (initState cfg) pre) v1 n1 hwpre hpre
    rw [if_pos hm] at hline
    have hwline := processLine_fields_length cfg (processLines cfg (initState cfg) pre)
      lastLine hwpre
    have hpost := processLines_last_nomatch cfg i f hf ht post
      (processLine cfg (processLines cfg (initState cfg) pre) lastLine)
      (some (f.parse (endOfLine lastLine f.pfx))) 1 hwline hline hno
    rw [hsplit, reportProgress_false, hi]
    dsimp only
    rw [lgetD_of_get _ hpost]
    rfl

/-- Witness for `report_progress_semantics` on the concrete registry
`cfgP`: a steady session raises, a session that has seen no progress
line reports 0, and after the progress line "P 55" (followed by an
unrelated line) the reported value is the parsed residual "55". -/
theorem report_progress_semantics_witness :
    reportProgress true cfgP (initState cfgP) = PResult.err PyErr.notImplementedError ∧
    reportProgress false cfgP (processLines cfgP (initState cfgP) ["Q 1"]) =
      PResult.ok (LVal.scal (SVal.num 0)) ∧
    reportProgress false cfgP
        (processLines cfgP (initState cfgP) (["Q 1"] ++ "P 55" :: ["I 9"])) =
      PResult.ok (fP.parse (endOfLine "P 55" fP.pfx)) := by
  have h := report_progress_semantics cfgP 0 fP rfl rfl rfl
  exact ⟨h.1 (initState cfgP), h.2.1 ["Q 1"] (by decide),
    h.2.2 ["Q 1"] ["I 9"] "P 55" (by decide) (by decide)⟩

theorem init_get (cfg : List FieldSpec) (i : ℕ) (f : FieldSpec) (hf : cfg.get? i = some f) :
    (initState cfg).fields.get? i =
      some (match f.type with
            | DType.many => DataState.allD [] 0
            | DType.last => DataState.lastD none 0) := by
  show (cfg.map _).get? i = _
  rw [lget_map, hf]
  rfl

theorem good_init (cfg : List FieldSpec) : GoodState cfg (initState cfg) := by
  refine ⟨?_, ?_, ?_⟩
  · show (cfg.map _).length = _
    rw [List.length_map]
  · intro i f d hf hd hm
    rw [init_get cfg i f hf] at hd
    injection hd with h2
    rw [hm] at h2
    exact ⟨[], 0, h2.symm⟩
  · intro i f d hf hd hni hm
    rw [init_get cfg i f hf] at hd
    injection hd with h2
    rw [hm] at h2
    rw [← h2]
    show (0 : ℕ) + boolNat f.before_index ≤ 0 + 1
    cases f.before_index <;> simp [boolNat]

theorem good_upd (cfg : List FieldSpec) (s : SState) (i : ℕ) (v : LVal)
    (hg : GoodState cfg s) :
    GoodState cfg ⟨s.fields.set i ((s.fields.getD i (DataState.allD [] 0)).update v),
      s.no_lines, s.no_iters⟩ := by
  obtain ⟨hw, hshape, hcount⟩ := hg
  by_cases hlt : i < s.fields.length
  · obtain ⟨d0, hd0⟩ := lget_of_lt hlt
    refine ⟨?_, ?_, ?_⟩
    · show (s.fields.set i _).length = _
      rw [List.length_set]
      exact hw
    · intro j f d hfj hdj hm
      by_cases hij : i = j
      · subst hij
        have hdj2 : (s.fields.set i ((s.fields.getD i (DataState.allD [] 0)).update v)).get? i =
            some d := hdj
        rw [lgetD_of_get _ hd0, lget_set_self _ hlt] at hdj2
        obtain ⟨vs, n, he⟩ := hshape i f d0 hfj hd0 hm
        subst he
        injection hdj2 with h2
        exact ⟨vs ++ [v], n + 1, by rw [← h2]; rfl⟩
      · have hdj2 : (s.fields.set i ((s.fields.getD i (DataState.allD [] 0)).update v)).get? j =
            some d := hdj
        rw [lget_set_ne _ hij] at hdj2
        exact hshape j f d hfj hdj2 hm
    · intro j f d hfj hdj hni hm
      by_cases hij : i = j
      · subst hij
        have hdj2 : (s.fields.set i ((s.fields.getD i (DataState.allD [] 0)).update v)).get? i =
            some d := hdj
        rw [lgetD_of_get _ hd0, lget_set_self _ hlt] at hdj2
        have hc0 := hcount i f d0 hfj hd0 hni hm
        obtain ⟨vs, n, he⟩ := hshape i f d0 hfj hd0 hm
        subst he
        injection hdj2 with h2
        show s.no_iters + boolNat f.before_index ≤ d.no_values + 1
        rw [← h2]
        simp only [DataState.update, DataState.no_values] at hc0 ⊢
        omega
      · have hdj2 : (s.fields.set i ((s.fields.getD i (DataState.allD [] 0)).update v)).get? j =
            some d := hdj
        rw [lget_set_ne _ hij] at hdj2
        exact hcount j f d hfj hdj2 hni hm
  · rw [List.set_eq_of_length_le (Nat.le_of_not_lt hlt)]
    exact ⟨hw, hshape, hcount⟩

theorem sync_achieves (cfg : List FieldSpec) (s : SState) (hg : GoodState cfg s) (i : ℕ)
    (f : FieldSpec) (d : DataState) (hf : cfg.get? i = some f)
    (hd : s.fields.get? i = some d) (hni : f.index = false) (hm : f.type = DType.many) :
    (syncFields cfg s.no_iters s.fields).get? i = some (syncOne s.no_iters f d) ∧
    s.no_iters + boolNat f.before_index ≤ (syncOne s.no_iters f d).no_values ∧
    (d.no_values < s.no_iters + boolNat f.before_index →
      (syncOne s.no_iters f d).no_values = s.no_iters + boolNat f.before_index) := by
  obtain ⟨hw, hshape, hcount⟩ := hg
  have hb := hcount i f d hf hd hni hm
  obtain ⟨vs, n, he⟩ := hshape i f d hf hd hm
  subst he
  refine ⟨?_, ?_, ?_⟩
  · show (List.zipWith _ cfg s.fields).get? i = _
    exact lget_zipWith _ hf hd
  · unfold syncOne
    rw [if_pos hni]
    by_cases hlt : (DataState.allD vs n).no_values < s.no_iters + boolNat f.before_index
    · rw [if_pos ⟨hm, hlt⟩]
      simp only [DataState.update, DataState.no_values] at hb hlt ⊢
      omega
    · rw [if_neg (fun hand => hlt hand.2)]
      simp only [DataState.no_values] at hlt ⊢
      omega
  · intro hlt2
    unfold syncOne
    rw [if_pos hni, if_pos ⟨hm, hlt2⟩]
    simp only [DataState.update, DataState.no_values] at hb hlt2 ⊢
    omega

theorem good_syncbump (cfg : List FieldSpec) (s : SState) (hg : GoodState cfg s) :
    GoodState cfg ⟨syncFields cfg s.no_iters s.fields, s.no_lines, s.no_iters + 1⟩ := by
  obtain ⟨hw, hshape, hcount⟩ := hg
  have hg2 : GoodState cfg s := ⟨hw, hshape, hcount⟩
  refine ⟨?_, ?_, ?_⟩
  · show (List.zipWith _ cfg s.fields).length = _
    rw [List.length_zipWith, hw, Nat.min_self]
  · intro j f d hfj hdj hm
    have hjlt : j < s.fields.length := by
      rw [hw]
      exact lget_lt hfj
    obtain ⟨d0, hd0⟩ := lget_of_lt hjlt
    have hz := lget_zipWith (syncOne s.no_iters) hfj hd0
    have hdj2 : (List.zipWith (syncOne s.no_iters) cfg s.fields).get? j = some d := hdj
    rw [hz] at hdj2
    injection hdj2 with h2
    obtain ⟨vs, n, he⟩ := hshape j f d0 hfj hd0 hm
    subst he
    obtain ⟨vs2, n2, he2, _⟩ := syncOne_allD_mono s.no_iters f vs n
    exact ⟨vs2, n2, by rw [← h2, he2]⟩
  · intro j f d hfj hdj hni hm
    have hjlt : j < s.fields.length := by
      rw [hw]
      exact lget_lt hfj
    obtain ⟨d0, hd0⟩ := lget_of_lt hjlt
    have hz := lget_zipWith (syncOne s.no_iters) hfj hd0
    have hdj2 : (List.zipWith (syncOne s.no_iters) cfg s.fields).get? j = some d := hdj
    rw [hz] at hdj2
    injection hdj2 with h2
    have hach := (sync_achieves cfg s hg2 j f d0 hfj hd0 hni hm).2.1
    show s.no_iters + 1 + boolNat f.before_index ≤ d.no_values + 1
    rw [← h2]
    omega

theorem good_procOne (cfg : List FieldSpec) (line : String) (s : SState) (j : ℕ)
    (hg : GoodState cfg s) : GoodState cfg (procOne cfg line s j) := by
  cases hc : cfg.get? j with
  | none => rw [procOne_none cfg line s j hc]; exact hg
  | some fj =>
    cases hp : pyStartsWith line fj.pfx with
    | false => rw [procOne_nomatch cfg line s j fj hc hp]; exact hg
    | true =>
      cases hi2 : fj.index with
      | false =>
        rw [procOne_match_noidx cfg line s j fj hc hp hi2]
        exact good_upd cfg s j _ hg
      | true =>
        rw [procOne_match_idx cfg line s j fj hc hp hi2]
        exact good_syncbump cfg
          ⟨s.fields.set j ((s.fields.getD j (DataState.allD [] 0)).update
            (fj.parse (endOfLine line fj.pfx))), s.no_lines, s.no_iters⟩
          (good_upd cfg s j _ hg)

theorem good_procFrom (cfg : List FieldSpec) (line : String) (js : List ℕ) :
    ∀ s : SState, GoodState cfg s → GoodState cfg (procFrom cfg line s js) := by
  induction js with
  | nil => intro s hg; exact hg
  | cons j js ih =>
    intro s hg
    simp only [procFrom]
    exact ih _ (good_procOne cfg line s j hg)

theorem reach_good (cfg : List FieldSpec) (s : SState) (h : ReachMid cfg s) :
    GoodState cfg s := by
  induction h with
  | init => exact good_init cfg
  | line s2 l _ ih =>
    have hg := good_procFrom cfg l (List.range cfg.length) s2 ih
    exact ⟨hg.1, hg.2.1, hg.2.2⟩
  | field s2 l i _ ih => exact good_procOne cfg l s2 i ih
  | upd s2 i v _ ih => exact good_upd cfg s2 i v ih

/-- Claim C4 (confirmed): at every point where `_sync_cols` can fire in
a run started from the initial state — in particular right after the
update of an iteration-marker line type — every AllAppend line type that
is not itself the iteration marker ends the sync with count at least
`no_iters + int(before_index)`; and whenever its count is below that
bound the sync appends missing sentinels until the counts match
exactly. -/
theorem sync_cols_pads_to_bound (cfg : List FieldSpec) (s : SState) (hr : ReachMid cfg s)
    (i : ℕ) (f : FieldSpec) (d : DataState) (hf : cfg.get? i = some f)
    (hd : s.fields.get? i = some d) (hni : f.index = false) (hm : f.type = DType.many) :
    (syncFields cfg s.no_iters s.fields).get? i = some (syncOne s.no_iters f d) ∧
    s.no_iters + boolNat f.before_index ≤ (syncOne s.no_iters f d).no_values ∧
    (d.no_values < s.no_iters + boolNat f.before_index →
      (syncOne s.no_iters f d).no_values = s.no_iters + boolNat f.before_index) :=
  sync_achieves cfg s (reach_good cfg s hr) i f d hf hd hni hm

/-- Witness for `sync_cols_pads_to_bound`: in the registry `cfg4`
(marker "elapsed", before-index field "b"), after processing the marker
line "E x" the session has completed one iteration and field "b" holds
one padded value; a sync at that state pads "b" to exactly
`no_iters + 1 = 2` values. -/
theorem sync_cols_pads_to_bound_witness :
    (syncOne 1 fB4 (DataState.allD [nanF] 1)).no_values = 2 := by
  have h := sync_cols_pads_to_bound cfg4 (processLine cfg4 (initState cfg4) "E x")
    (ReachMid.line (initState cfg4) "E x" ReachMid.init) 1 fB4 (DataState.allD [nanF] 1)
    rfl (by decide) rfl rfl
  exact h.2.2 (by decide)
